import Mathlib

/-!
Verification of the Blue Zone Analysis pipeline (NYBG-Conservation/Blue-Zone-Analysis).

The development shallowly embeds the overlay-aggregate-threshold-union pipeline of
the three epoch scripts (id_bluebelts_past.py, id_bluebelts_present.py,
id_bluebelts_future.py).  Zone and intersection-fragment areas are modelled as
rationals; a pandas missing value (NaN) arising from an outer or left join is
modelled as `Option.none`, with every comparison against `none` evaluating to
false, exactly as a pandas comparison against NaN does.  The pandas behaviours
embedded here are the ones the scripts rely on: `groupby` drops rows whose group
key is missing and sorts the group keys, `merge(how, outer)` takes the sorted
union of the key sets, `merge(how, left)` keeps every left row, aggregate `sum`
adds the member values, aggregate `first` takes the first non-null value, and
`(series >= threshold).astype(int)` maps NaN comparisons to 0.
-/

namespace BlueZone

/-- An atomic zone record: `unique_id` plus the `area` column computed at load
time (the area column assigned from `atomic_polygons.geometry.area`). -/
structure Zone where
  unique_id : Nat
  area : ℚ
deriving DecidableEq, Repr

/-- One intersection fragment produced by `gpd.overlay(atomic_polygons, gdf,
how=intersection)`: the owning zone id (missing when the zone record had no
usable `unique_id`) and the fragment area taken from the fragment geometry. -/
structure Fragment where
  unique_id : Option Nat
  area : ℚ
deriving DecidableEq, Repr

/-- Sort a list of keys ascending, as `pandas.groupby` / outer `merge` sort the
group keys of the result. -/
def sortNat (l : List Nat) : List Nat :=
  List.insertionSort (· ≤ ·) l

/-- The distinct zone ids appearing among the fragments, sorted; fragments with
a missing id are dropped, as `groupby` on `unique_id` drops NaN keys. -/
def fragIds (frs : List Fragment) : List Nat :=
  sortNat (frs.filterMap Fragment.unique_id).dedup

/-- Summed fragment area of one zone for one layer: the sum aggregation of
the `groupby` on `unique_id` over the per-layer area field. -/
def aggArea (frs : List Fragment) (i : Nat) : ℚ :=
  ((frs.filter (fun f => f.unique_id = some i)).map Fragment.area).sum

/-- The dissolved per-layer table: one `(unique_id, summed area)` row per
distinct id, in sorted key order — the embedding of `dissolved_df`. -/
def dissolveTable (frs : List Fragment) : List (Nat × ℚ) :=
  (fragIds frs).map (fun i => (i, aggArea frs i))

/-- Look a key up in a keyed table; `none` models the NaN a pandas outer join
leaves for a key absent from one side. -/
def lookupT {α : Type} (t : List (Nat × α)) (i : Nat) : Option α :=
  (t.find? (fun r => r.1 = i)).map Prod.snd

/-- The sorted union of the key sets of the per-layer dissolved tables: the key
column of the chain of outer merges on `unique_id`. -/
def mergedKeys (layers : List (List Fragment)) : List Nat :=
  sortNat (((layers.map dissolveTable).flatMap (fun t => t.map Prod.fst)).dedup)

/-- The chain of outer merges of the per-layer dissolved tables on `unique_id`:
rows are keyed by the sorted union of the key sets, and the entry of a layer is
`none` (NaN) when the key is absent from that table of that layer. -/
def mergedAgg (layers : List (List Fragment)) : List (Nat × List (Option ℚ)) :=
  (mergedKeys layers).map
    (fun k => (k, (layers.map dissolveTable).map (fun t => lookupT t k)))

/-- The area threshold rule — the aggregate column compared with `0.10 * area` and
cast with `astype(int)`:
a missing aggregate compares false (pandas NaN comparison) and yields 0. -/
def areaFlag (agg : Option ℚ) (zoneArea : ℚ) : ℤ :=
  match agg with
  | none => 0
  | some v => if (1 : ℚ)/10 * zoneArea ≤ v then 1 else 0

/-- Per-layer area flags of one row, each produced by the same fixed 10% rule. -/
def areaFlags (aggs : List (Option ℚ)) (zoneArea : ℚ) : List ℤ :=
  aggs.map (fun a => areaFlag a zoneArea)

/-- The point-count threshold — `depcaAfg` starts at 0 and `loc` sets it to 1 where
`Point_Coun >= 3`: NaN compares false and leaves 0. -/
def pointFlag (pc : Option ℚ) : ℤ :=
  match pc with
  | none => 0
  | some v => if (3 : ℚ) ≤ v then 1 else 0

/-- The epoch union `final_df.loc[(f1 == 1) | (f2 == 1) | ... ] = 1` over an
initial 0 column: 1 exactly when some listed flag equals 1, else 0. -/
def orFlag (flags : List ℤ) : ℤ :=
  if flags.any (fun f => f = 1) then 1 else 0

/-- The rows a left join contributes for one zone, given the merged-table rows
matching its key: a zone with no match gets the miss row (all layer columns
NaN); a zone with matches gets one output row per match. -/
def joinBranch {β γ : Type} (mkMiss : Zone → γ) (mkHit : Zone → β → γ) (z : Zone) :
    List (Nat × β) → List γ
  | [] => [mkMiss z]
  | ms => ms.map (fun m => mkHit z m.2)

/-- The left join of the zone attribute table against a merged layer table
(`merge` of `atomic_poly_csv` with the merged table on `unique_id`, how=left): every zone row
survives. -/
def leftJoinRows {β γ : Type} (mkMiss : Zone → γ) (mkHit : Zone → β → γ)
    (merged : List (Nat × β)) (zones : List Zone) : List γ :=
  zones.flatMap (fun z =>
    joinBranch mkMiss mkHit z (merged.filter (fun r => r.1 = z.unique_id)))

/-! ### Future epoch (id_bluebelts_future.py) -/

/-- One row of `future_union.csv`: zone id and area, the per-layer aggregate
columns, the per-layer flag columns, and `BZ_future`. -/
structure FutureRow where
  unique_id : Nat
  area : ℚ
  aggs : List (Option ℚ)
  flags : List ℤ
  BZ_future : ℤ
deriving DecidableEq, Repr

/-- Build a future row from the joined aggregates: flags by the 10% rule,
`BZ_future` by the union of the per-layer flags. -/
def mkFutureRow (z : Zone) (aggs : List (Option ℚ)) : FutureRow :=
  let fs := areaFlags aggs z.area
  ⟨z.unique_id, z.area, aggs, fs, orFlag fs⟩

/-- The final future table: dissolve each layer, outer-merge the dissolved
tables, left-join from the zone table, then compute flags and `BZ_future`.
A zone absent from every layer gets all-NaN aggregates. -/
def finalFuture (zones : List Zone) (layers : List (List Fragment)) : List FutureRow :=
  leftJoinRows (fun z => mkFutureRow z (List.replicate layers.length none))
    (fun z aggs => mkFutureRow z aggs) (mergedAgg layers) zones

/-! ### Past epoch (id_bluebelts_past.py) -/

/-- One row of `past_union.csv`: zone id and area, the per-layer aggregate
columns, the `past_sum` column, and `BZ_past`.  There are no per-layer flag
columns in the past table. -/
structure PastRow where
  unique_id : Nat
  area : ℚ
  aggs : List (Option ℚ)
  past_sum : Option ℚ
  BZ_past : ℤ
deriving DecidableEq, Repr

/-- The `past_sum` column, `sum(axis=1)` over the per-layer area columns: a row-wise
sum that skips NaN entries (pandas default `skipna=True`). -/
def pastSum (aggs : List (Option ℚ)) : ℚ :=
  (aggs.map (fun a => a.getD 0)).sum

/-- A past row for a zone present in the merged layer table: `past_sum` is the
NaN-skipping row sum and `BZ_past = (past_sum >= 0.10 * area).astype(int)`. -/
def mkPastHit (z : Zone) (aggs : List (Option ℚ)) : PastRow :=
  ⟨z.unique_id, z.area, aggs, some (pastSum aggs),
    if (1 : ℚ)/10 * z.area ≤ pastSum aggs then 1 else 0⟩

/-- A past row for a zone absent from every layer: the left join leaves
`past_sum` NaN, and the NaN comparison makes `BZ_past` 0. -/
def mkPastMiss (n : Nat) (z : Zone) : PastRow :=
  ⟨z.unique_id, z.area, List.replicate n none, none, 0⟩

/-- The final past table: dissolve, outer-merge, compute `past_sum`, left-join
from the zone table, then threshold the sum into `BZ_past`. -/
def finalPast (zones : List Zone) (layers : List (List Fragment)) : List PastRow :=
  leftJoinRows (mkPastMiss layers.length) mkPastHit (mergedAgg layers) zones

/-! ### Present epoch (id_bluebelts_present.py) -/

/-- One record of the 311 point layer attribute table (`present_311`): the zone
id (missing when the record lacks a usable `unique_id`) and the `Point_Coun`
attribute value (missing when null). -/
structure Row311 where
  uid : Option Nat
  pointCoun : Option ℚ
deriving DecidableEq, Repr

/-- The 311 input table: its column-name list (what `present_311_df.columns`
exposes) together with its records. -/
structure Table311 where
  cols : List String
  rows : List Row311
deriving DecidableEq, Repr

/-- The `groupby` on `unique_id` with the first aggregation of `Point_Coun` over the
311 records: rows with a missing id are dropped, keys are sorted, and first takes the
first non-null `Point_Coun` of the group. -/
def agg311 (rows : List Row311) : List (Nat × Option ℚ) :=
  (sortNat ((rows.filterMap Row311.uid).dedup)).map (fun k =>
    (k, ((rows.filter (fun r => r.uid = some k)).filterMap Row311.pointCoun).head?))

/-- The `present_311_csv` computation: `keep_cols` filters the three wanted
column names by presence, but the following `groupby` and `agg` calls always
reference `unique_id`, `depcall` and `Point_Coun`, so any of the three
missing from the filtered frame raises a KeyError (the run aborts). -/
def present_311_csv (t : Table311) : Except String (List (Nat × Option ℚ)) :=
  if "unique_id" ∉ ["unique_id", "depcall", "Point_Coun"].filter (fun c => c ∈ t.cols) then
    Except.error "KeyError: unique_id"
  else if "depcall" ∉ ["unique_id", "depcall", "Point_Coun"].filter (fun c => c ∈ t.cols) then
    Except.error "KeyError: depcall"
  else if "Point_Coun" ∉ ["unique_id", "depcall", "Point_Coun"].filter (fun c => c ∈ t.cols) then
    Except.error "KeyError: Point_Coun"
  else Except.ok (agg311 t.rows)

/-- One row of `present_union.csv`: zone id and area, the two area-layer
aggregate columns (`mod_cA`, `100A`), the joined `Point_Coun` value, the three
flag columns (`depcaAfg`, `mod_cAfg`, `100Afg`) and `BZ_present`. -/
structure PresentRow where
  unique_id : Nat
  area : ℚ
  mod_cA : Option ℚ
  hundA : Option ℚ
  pointCoun : Option ℚ
  depcaAfg : ℤ
  mod_cAfg : ℤ
  hundAfg : ℤ
  BZ_present : ℤ
deriving DecidableEq, Repr

/-- Build a present row from the joined values: the point flag from
`Point_Coun`, the two area flags by the 10% rule, and `BZ_present` as the union
of the three flags. -/
def mkPresentRow (z : Zone) (m h pc : Option ℚ) : PresentRow :=
  let d := pointFlag pc
  let mf := areaFlag m z.area
  let hf := areaFlag h z.area
  ⟨z.unique_id, z.area, m, h, pc, d, mf, hf, orFlag [d, mf, hf]⟩

/-- The sorted union of the key sets of the three present tables. -/
def presentKeys (lmod l100 : List Fragment) (p : List (Nat × Option ℚ)) : List Nat :=
  sortNat (((dissolveTable lmod).map Prod.fst ++ (dissolveTable l100).map Prod.fst ++
    p.map Prod.fst).dedup)

/-- The merged present layer table: outer merges of the moderate-flood table,
the 100-year table and the aggregated 311 table on `unique_id`. -/
def mergedPresent (lmod l100 : List Fragment) (p : List (Nat × Option ℚ)) :
    List (Nat × (Option ℚ × Option ℚ × Option (Option ℚ))) :=
  (presentKeys lmod l100 p).map
    (fun k => (k, (lookupT (dissolveTable lmod) k, lookupT (dissolveTable l100) k,
      lookupT p k)))

/-- The rows of the final present table, given a successfully aggregated 311
table: left join from the zone table, then flags and `BZ_present`.  The
`Point_Coun` column of a zone absent from the 311 table is NaN (`Option.join`
flattens the join-miss and the null-value cases, both of which compare false). -/
def presentRows (zones : List Zone) (lmod l100 : List Fragment)
    (p : List (Nat × Option ℚ)) : List PresentRow :=
  leftJoinRows (fun z => mkPresentRow z none none none)
    (fun z b => mkPresentRow z b.1 b.2.1 b.2.2.join)
    (mergedPresent lmod l100 p) zones

/-- The whole present run: it aborts with the 311 aggregation error when one of
the referenced columns is missing, and otherwise produces the final table. -/
def finalPresent (zones : List Zone) (lmod l100 : List Fragment) (t : Table311) :
    Except String (List PresentRow) :=
  (present_311_csv t).map (presentRows zones lmod l100)

/-! ### Point counting upstream of the 311 table -/

/-- A 311 service-request point, abstracted to the id of the atomic zone that
spatially contains it (`none` when it falls in no zone). -/
structure CallPoint where
  containing_zone : Option Nat
deriving DecidableEq, Repr

/-- Modelled from the spec: the upstream point-in-polygon count that produces
the `Point_Coun` attribute of the 311 input shapefile is not part of the
repository sources; per the spec it is the number of points contained in the
zone (point containment, not intersected polygon area). -/
def point_count (pts : List CallPoint) (i : Nat) : Nat :=
  (pts.filter (fun p => p.containing_zone = some i)).length

/-! ### Column names across the merge chain -/

/-- The column renaming of one outer `merge` step on `unique_id` whose two suffixes
are both `s`: a non-key column name present on both sides gets the
suffix appended — the same suffix on the left copy and on the right copy — and
every other column keeps its name; the key column appears once. -/
def mergeCols (left right : List String) (s : String) : List String :=
  (left.map (fun c => if c ≠ "unique_id" ∧ c ∈ right then c ++ s else c)) ++
    ((right.filter (fun c => c ≠ "unique_id")).map
      (fun c => if c ∈ left then c ++ s else c))

/-- The merge loop of the scripts: fold the remaining tables into the first
with suffixes `_1`, `_2`, ... taken from a step counter. -/
def mergeChainAux : List String → List (List String) → Nat → List String
  | acc, [], _ => acc
  | acc, t :: ts, n => mergeChainAux (mergeCols acc t ("_" ++ toString n)) ts (n + 1)

/-- Column names of the chained outer merge of the per-layer tables. -/
def mergeChainCols : List (List String) → List String
  | [] => []
  | t :: ts => mergeChainAux t ts 1

/-- Column names of the ten dissolved past-layer CSVs, in merge order: the
aggregate column is the flag field with its last two characters replaced by
`A`, per the flag-field slice `[:-2] + A` of the script. -/
def pastLayerCols : List (List String) :=
  [["unique_id", "beachA", "beaches"],
   ["unique_id", "rivA", "river"],
   ["unique_id", "fresh_weA", "fresh_wetl"],
   ["unique_id", "mariA", "marine"],
   ["unique_id", "poA", "pond"],
   ["unique_id", "saltmarA", "saltmarsh"],
   ["unique_id", "streaA", "streams"],
   ["unique_id", "dunA", "dunes"],
   ["unique_id", "tidal_crA", "tidal_cree"],
   ["unique_id", "int_streA", "int_stream"]]

/-- Column names of the three dissolved future-layer CSVs, in merge order; the
first two also carry their flood-type attribute column. -/
def futureLayerCols : List (List String) :=
  [["unique_id", "mod_20A", "mod_2050", "mo_20_fldC"],
   ["unique_id", "ext_20A", "ext_2080", "ex_20_fldC"],
   ["unique_id", "500A", "500yr"]]

/-- Column names of the present-epoch tables in merge order: the two dissolved
area-layer CSVs followed by the aggregated 311 table. -/
def presentLayerCols : List (List String) :=
  [["unique_id", "mod_cA", "mod_cur", "mo_cu_fldC"],
   ["unique_id", "100A", "100yr"],
   ["unique_id", "depcall", "Point_Coun"]]

/-! ### Helper lemmas -/

theorem areaFlag_some_eq_one_iff (v zoneArea : ℚ) :
    areaFlag (some v) zoneArea = 1 ↔ (1 : ℚ)/10 * zoneArea ≤ v := by
  simp only [areaFlag]
  by_cases h : (1 : ℚ)/10 * zoneArea ≤ v
  · rw [if_pos h]
    exact iff_of_true rfl h
  · rw [if_neg h]
    exact iff_of_false (by norm_num) h

theorem areaFlag_some_eq_zero_iff (v zoneArea : ℚ) :
    areaFlag (some v) zoneArea = 0 ↔ v < (1 : ℚ)/10 * zoneArea := by
  simp only [areaFlag]
  by_cases h : (1 : ℚ)/10 * zoneArea ≤ v
  · rw [if_pos h]
    exact iff_of_false (by norm_num) (not_lt.mpr h)
  · rw [if_neg h]
    exact iff_of_true rfl (lt_of_not_le h)

theorem areaFlag_none (zoneArea : ℚ) : areaFlag none zoneArea = 0 := rfl

theorem areaFlag_mem (a : Option ℚ) (zoneArea : ℚ) :
    areaFlag a zoneArea = 0 ∨ areaFlag a zoneArea = 1 := by
  cases a with
  | none => exact Or.inl rfl
  | some v =>
    simp only [areaFlag]
    by_cases h : (1 : ℚ)/10 * zoneArea ≤ v
    · rw [if_pos h]
      exact Or.inr rfl
    · rw [if_neg h]
      exact Or.inl rfl

theorem pointFlag_some_eq_one_iff (v : ℚ) : pointFlag (some v) = 1 ↔ (3 : ℚ) ≤ v := by
  simp only [pointFlag]
  by_cases h : (3 : ℚ) ≤ v
  · rw [if_pos h]
    exact iff_of_true rfl h
  · rw [if_neg h]
    exact iff_of_false (by norm_num) h

theorem pointFlag_none : pointFlag none = 0 := rfl

theorem pointFlag_mem (pc : Option ℚ) : pointFlag pc = 0 ∨ pointFlag pc = 1 := by
  cases pc with
  | none => exact Or.inl rfl
  | some v =>
    simp only [pointFlag]
    by_cases h : (3 : ℚ) ≤ v
    · rw [if_pos h]
      exact Or.inr rfl
    · rw [if_neg h]
      exact Or.inl rfl

theorem orFlag_eq_one_iff (flags : List ℤ) : orFlag flags = 1 ↔ 1 ∈ flags := by
  by_cases h : flags.any (fun f => f = 1)
  · simp only [List.any_eq_true, decide_eq_true_eq] at h
    obtain ⟨f, hf, rfl⟩ := h
    simp only [orFlag, List.any_eq_true, decide_eq_true_eq]
    simp [hf]
  · simp only [List.any_eq_true, decide_eq_true_eq, not_exists, not_and] at h
    have h1 : (1 : ℤ) ∉ flags := fun hm => h 1 hm rfl
    simp only [orFlag, List.any_eq_true, decide_eq_true_eq]
    constructor
    · intro hx
      split at hx
      · rename_i hh
        obtain ⟨f, hf, rfl⟩ := hh
        exact hf
      · exact absurd hx (by norm_num)
    · intro hm
      exact absurd hm h1

theorem orFlag_mem (flags : List ℤ) : orFlag flags = 0 ∨ orFlag flags = 1 := by
  unfold orFlag
  split
  · exact Or.inr rfl
  · exact Or.inl rfl

theorem sortNat_nodup (l : List Nat) (h : l.Nodup) : (sortNat l).Nodup :=
  ((List.perm_insertionSort (· ≤ ·) l).nodup_iff).mpr h

theorem map_fst_key_map {α : Type} (keys : List Nat) (f : Nat → α) :
    ((keys.map (fun k => (k, f k))).map Prod.fst) = keys := by
  simp [List.map_map, Function.comp_def]

theorem mergedAgg_keys_nodup (layers : List (List Fragment)) :
    ((mergedAgg layers).map Prod.fst).Nodup := by
  unfold mergedAgg
  rw [map_fst_key_map]
  exact sortNat_nodup _ (List.nodup_dedup _)

theorem mergedPresent_keys_nodup (lmod l100 : List Fragment) (p : List (Nat × Option ℚ)) :
    ((mergedPresent lmod l100 p).map Prod.fst).Nodup := by
  unfold mergedPresent
  rw [map_fst_key_map]
  exact sortNat_nodup _ (List.nodup_dedup _)

theorem lookupT_cons {α : Type} (a : Nat × α) (t : List (Nat × α)) (i : Nat) :
    lookupT (a :: t) i = if a.1 = i then some a.2 else lookupT t i := by
  by_cases h : a.1 = i <;> simp [lookupT, List.find?_cons, h]

theorem lookupT_map_keys {α : Type} (keys : List Nat) (f : Nat → α) (i : Nat) :
    lookupT (keys.map (fun k => (k, f k))) i =
      if i ∈ keys then some (f i) else none := by
  induction keys with
  | nil => simp [lookupT]
  | cons k ks ih =>
    rw [List.map_cons, lookupT_cons]
    by_cases h : k = i
    · subst h
      simp
    · have hik : ¬ i = k := fun hh => h hh.symm
      simp [h, hik, ih, List.mem_cons]

theorem lookupT_dissolveTable (frs : List Fragment) (i : Nat) :
    lookupT (dissolveTable frs) i =
      if i ∈ fragIds frs then some (aggArea frs i) else none := by
  unfold dissolveTable
  exact lookupT_map_keys (fragIds frs) (aggArea frs) i

theorem filter_key_len_le_one {α : Type} (t : List (Nat × α))
    (h : (t.map Prod.fst).Nodup) (i : Nat) :
    (t.filter (fun r => r.1 = i)).length ≤ 1 := by
  induction t with
  | nil => simp
  | cons a t ih =>
    simp only [List.map_cons, List.nodup_cons] at h
    by_cases hai : a.1 = i
    · have hnil : t.filter (fun r => decide (r.1 = i)) = [] := by
        rw [List.filter_eq_nil_iff]
        intro r hr
        simp only [decide_eq_true_eq]
        intro hri
        exact h.1 (hai ▸ hri ▸ List.mem_map_of_mem Prod.fst hr)
      simp [List.filter_cons, hai, hnil]
    · simp only [List.filter_cons, decide_eq_true_eq, hai, if_false]
      exact ih h.2

theorem leftJoinRows_cons {β γ : Type} (mkMiss : Zone → γ) (mkHit : Zone → β → γ)
    (merged : List (Nat × β)) (z : Zone) (zs : List Zone) :
    leftJoinRows mkMiss mkHit merged (z :: zs) =
      joinBranch mkMiss mkHit z (merged.filter (fun r => r.1 = z.unique_id)) ++
        leftJoinRows mkMiss mkHit merged zs := by
  simp [leftJoinRows]

theorem mem_joinBranch {β γ : Type} {mkMiss : Zone → γ} {mkHit : Zone → β → γ}
    {z : Zone} {ms : List (Nat × β)} {r : γ} (hr : r ∈ joinBranch mkMiss mkHit z ms) :
    r = mkMiss z ∨ ∃ b, r = mkHit z b := by
  cases ms with
  | nil =>
    simp only [joinBranch, List.mem_singleton] at hr
    exact Or.inl hr
  | cons m ms =>
    simp only [joinBranch, List.mem_map] at hr
    obtain ⟨b, _, hb⟩ := hr
    exact Or.inr ⟨b.2, hb.symm⟩

theorem mem_leftJoinRows {β γ : Type} {mkMiss : Zone → γ} {mkHit : Zone → β → γ}
    {merged : List (Nat × β)} {zones : List Zone} {r : γ}
    (hr : r ∈ leftJoinRows mkMiss mkHit merged zones) :
    ∃ z ∈ zones, r = mkMiss z ∨ ∃ b, r = mkHit z b := by
  simp only [leftJoinRows, List.mem_flatMap] at hr
  obtain ⟨z, hz, hrz⟩ := hr
  exact ⟨z, hz, mem_joinBranch hrz⟩

theorem countP_joinBranch {β γ : Type} (uidOf : γ → Nat) (mkMiss : Zone → γ)
    (mkHit : Zone → β → γ) (z : Zone) (ms : List (Nat × β)) (hms : ms.length ≤ 1)
    (hmiss : uidOf (mkMiss z) = z.unique_id)
    (hhit : ∀ b, uidOf (mkHit z b) = z.unique_id) (i : Nat) :
    (joinBranch mkMiss mkHit z ms).countP (fun r => uidOf r = i) =
      if z.unique_id = i then 1 else 0 := by
  match ms with
  | [] => simp [joinBranch, List.countP_cons, hmiss]
  | [m] => simp [joinBranch, List.countP_cons, hhit]
  | _ :: _ :: _ => simp at hms

theorem countP_leftJoinRows {β γ : Type} (uidOf : γ → Nat) (mkMiss : Zone → γ)
    (mkHit : Zone → β → γ) (merged : List (Nat × β)) (zones : List Zone)
    (hkeys : (merged.map Prod.fst).Nodup)
    (hmiss : ∀ z, uidOf (mkMiss z) = z.unique_id)
    (hhit : ∀ z b, uidOf (mkHit z b) = z.unique_id) (i : Nat) :
    (leftJoinRows mkMiss mkHit merged zones).countP (fun r => uidOf r = i) =
      zones.countP (fun z => z.unique_id = i) := by
  induction zones with
  | nil => simp [leftJoinRows]
  | cons z zs ih =>
    rw [leftJoinRows_cons, List.countP_append, ih, List.countP_cons,
      countP_joinBranch uidOf mkMiss mkHit z _
        (filter_key_len_le_one merged hkeys z.unique_id) (hmiss z) (hhit z) i]
    by_cases hzi : z.unique_id = i
    · simp [hzi]
      omega
    · simp [hzi]

theorem countP_uid_of_nodup (zones : List Zone)
    (h : (zones.map Zone.unique_id).Nodup) (i : Nat) :
    zones.countP (fun z => z.unique_id = i) =
      if i ∈ zones.map Zone.unique_id then 1 else 0 := by
  induction zones with
  | nil => simp
  | cons z zs ih =>
    simp only [List.map_cons, List.nodup_cons] at h
    rw [List.countP_cons, ih h.2]
    by_cases hzi : z.unique_id = i
    · subst hzi
      simp [h.1, List.mem_cons]
    · have hmem : i ∈ List.map Zone.unique_id (z :: zs) ↔ i ∈ List.map Zone.unique_id zs := by
        simp only [List.map_cons, List.mem_cons]
        exact ⟨fun hc => hc.resolve_left (fun he => hzi he.symm), Or.inr⟩
      rw [if_congr hmem rfl rfl]
      simp [hzi]

theorem aggArea_append (xs ys : List Fragment) (i : Nat) :
    aggArea (xs ++ ys) i = aggArea xs i + aggArea ys i := by
  simp [aggArea, List.filter_append]

theorem aggArea_perm {xs ys : List Fragment} (h : xs.Perm ys) (i : Nat) :
    aggArea xs i = aggArea ys i := by
  unfold aggArea
  exact List.Perm.sum_eq ((h.filter _).map _)

theorem aggArea_of_uniform (as : List ℚ) (i : Nat) :
    aggArea (as.map (fun a => ⟨some i, a⟩)) i = as.sum := by
  induction as with
  | nil => rfl
  | cons a as ih =>
    simp only [aggArea] at ih ⊢
    simp [List.filter_cons, ih]

theorem aggArea_singleton (i : Nat) (a : ℚ) : aggArea [⟨some i, a⟩] i = a := by
  simp [aggArea, List.filter_cons]

theorem filterMap_uid_filter_isSome (frs : List Fragment) :
    (frs.filter (fun f => f.unique_id.isSome)).filterMap Fragment.unique_id =
      frs.filterMap Fragment.unique_id := by
  induction frs with
  | nil => rfl
  | cons f fs ih =>
    cases hf : f.unique_id <;>
      simp [List.filter_cons, List.filterMap_cons, hf, ih]

theorem filter_uid_filter_isSome (frs : List Fragment) (i : Nat) :
    (frs.filter (fun f => f.unique_id.isSome)).filter (fun f => f.unique_id = some i) =
      frs.filter (fun f => f.unique_id = some i) := by
  induction frs with
  | nil => rfl
  | cons f fs ih =>
    cases hf : f.unique_id <;> simp [List.filter_cons, hf, ih]

theorem aggArea_filter_isSome (frs : List Fragment) (i : Nat) :
    aggArea (frs.filter (fun f => f.unique_id.isSome)) i = aggArea frs i := by
  unfold aggArea
  rw [filter_uid_filter_isSome]

theorem dissolveTable_filter_isSome (frs : List Fragment) :
    dissolveTable (frs.filter (fun f => f.unique_id.isSome)) = dissolveTable frs := by
  unfold dissolveTable
  have hids : fragIds (frs.filter (fun f => f.unique_id.isSome)) = fragIds frs := by
    unfold fragIds
    rw [filterMap_uid_filter_isSome]
  rw [hids]
  refine List.map_congr_left ?_
  intro i _
  rw [aggArea_filter_isSome]

theorem filterMap_uid311_filter_isSome (rows : List Row311) :
    (rows.filter (fun r => r.uid.isSome)).filterMap Row311.uid =
      rows.filterMap Row311.uid := by
  induction rows with
  | nil => rfl
  | cons r rs ih =>
    cases hr : r.uid <;>
      simp [List.filter_cons, List.filterMap_cons, hr, ih]

theorem filter_uid311_filter_isSome (rows : List Row311) (k : Nat) :
    (rows.filter (fun r => r.uid.isSome)).filter (fun r => r.uid = some k) =
      rows.filter (fun r => r.uid = some k) := by
  induction rows with
  | nil => rfl
  | cons r rs ih =>
    cases hr : r.uid <;> simp [List.filter_cons, hr, ih]

theorem agg311_filter_isSome (rows : List Row311) :
    agg311 (rows.filter (fun r => r.uid.isSome)) = agg311 rows := by
  unfold agg311
  rw [filterMap_uid311_filter_isSome]
  refine List.map_congr_left ?_
  intro k _
  rw [filter_uid311_filter_isSome]

theorem mem_areaFlags_bit {aggs : List (Option ℚ)} {zoneArea : ℚ} {f : ℤ}
    (hf : f ∈ areaFlags aggs zoneArea) : f = 0 ∨ f = 1 := by
  simp only [areaFlags, List.mem_map] at hf
  obtain ⟨a, _, rfl⟩ := hf
  exact areaFlag_mem a zoneArea

theorem finalFuture_row_flags {zones : List Zone} {layers : List (List Fragment)}
    {r : FutureRow} (hr : r ∈ finalFuture zones layers) :
    r.flags = areaFlags r.aggs r.area ∧ r.BZ_future = orFlag r.flags := by
  obtain ⟨z, _, hcase⟩ := mem_leftJoinRows hr
  rcases hcase with rfl | ⟨b, rfl⟩ <;> exact ⟨rfl, rfl⟩

theorem presentRows_row_shape {zones : List Zone} {lmod l100 : List Fragment}
    {p : List (Nat × Option ℚ)} {r : PresentRow} (hr : r ∈ presentRows zones lmod l100 p) :
    r.depcaAfg = pointFlag r.pointCoun ∧ r.mod_cAfg = areaFlag r.mod_cA r.area ∧
      r.hundAfg = areaFlag r.hundA r.area ∧
      r.BZ_present = orFlag [r.depcaAfg, r.mod_cAfg, r.hundAfg] := by
  obtain ⟨z, _, hcase⟩ := mem_leftJoinRows hr
  rcases hcase with rfl | ⟨b, rfl⟩ <;> exact ⟨rfl, rfl, rfl, rfl⟩

/-! ### Claim theorems -/

/-- C2: for every zone and every area-based layer, the per-layer flag is 1 iff the
aggregated overlap area of the zone is at least 0.10 times the zone area, and 0 otherwise;
the boundary case of exactly 0.10 times the zone area flags 1 (inclusive comparison);
and every flag column of the final table is produced by the same fixed 10% rule. -/
theorem C2_area_threshold_inclusive (v zoneArea : ℚ) (zones : List Zone)
    (layers : List (List Fragment)) (r : FutureRow) (hr : r ∈ finalFuture zones layers) :
    (areaFlag (some v) zoneArea = 1 ↔ (1 : ℚ)/10 * zoneArea ≤ v) ∧
    (areaFlag (some v) zoneArea = 0 ↔ v < (1 : ℚ)/10 * zoneArea) ∧
    areaFlag (some ((1 : ℚ)/10 * zoneArea)) zoneArea = 1 ∧
    r.flags = areaFlags r.aggs r.area := by
  refine ⟨areaFlag_some_eq_one_iff v zoneArea, areaFlag_some_eq_zero_iff v zoneArea, ?_, ?_⟩
  · exact (areaFlag_some_eq_one_iff _ _).mpr le_rfl
  · exact (finalFuture_row_flags hr).1

/-- Witness for C2, at aggregate 100 over zone area 1000 and a one-zone run. -/
theorem C2_area_threshold_inclusive_witness :
    (areaFlag (some 100) 1000 = 1 ↔ (1 : ℚ)/10 * 1000 ≤ 100) ∧
    (areaFlag (some 100) 1000 = 0 ↔ (100 : ℚ) < (1 : ℚ)/10 * 1000) ∧
    areaFlag (some ((1 : ℚ)/10 * 1000)) 1000 = 1 ∧
    (mkFutureRow ⟨1, 10⟩ []).flags =
      areaFlags (mkFutureRow ⟨1, 10⟩ []).aggs (mkFutureRow ⟨1, 10⟩ []).area :=
  C2_area_threshold_inclusive 100 1000 [⟨1, 10⟩] [] (mkFutureRow ⟨1, 10⟩ [])
    (by simp [finalFuture, leftJoinRows, joinBranch, mergedAgg, mergedKeys, sortNat,
      List.insertionSort])

/-- C4: a missing aggregate (a zone that never overlapped the layer) evaluates to flag
0, never to an error and never to a missing output value: the NaN comparison is false,
so every flag of an all-miss row is the integer 0. -/
theorem C4_missing_aggregate_flag_zero (zoneArea : ℚ) (z : Zone) (n : Nat) :
    areaFlag none zoneArea = 0 ∧ pointFlag none = 0 ∧
    (mkFutureRow z (List.replicate n none)).flags = List.replicate n 0 ∧
    (mkPresentRow z none none none).mod_cAfg = 0 ∧
    (mkPresentRow z none none none).hundAfg = 0 ∧
    (mkPresentRow z none none none).depcaAfg = 0 := by
  refine ⟨rfl, rfl, ?_, rfl, rfl, rfl⟩
  simp [mkFutureRow, areaFlags, List.map_replicate, areaFlag]

/-- C5: area aggregation is the sum of fragment areas — additive over concatenation,
invariant under reordering, and N fragments of one zone aggregate exactly like a single
fragment carrying the summed area; the threshold is evaluated against the aggregated
total looked up from the dissolved table, never against a single fragment. -/
theorem C5_fragment_summation (xs ys l1 l2 : List Fragment) (as : List ℚ)
    (frs : List Fragment) (z : Zone) (i : Nat) (hperm : l1.Perm l2) :
    aggArea (xs ++ ys) i = aggArea xs i + aggArea ys i ∧
    aggArea l1 i = aggArea l2 i ∧
    aggArea (as.map (fun a => ⟨some i, a⟩)) i = aggArea [⟨some i, as.sum⟩] i ∧
    areaFlag (lookupT (dissolveTable frs) z.unique_id) z.area =
      (if z.unique_id ∈ fragIds frs
        then areaFlag (some (aggArea frs z.unique_id)) z.area else 0) := by
  refine ⟨aggArea_append xs ys i, aggArea_perm hperm i, ?_, ?_⟩
  · rw [aggArea_of_uniform, aggArea_singleton]
  · rw [lookupT_dissolveTable]
    by_cases h : z.unique_id ∈ fragIds frs
    · rw [if_pos h, if_pos h]
    · rw [if_neg h, if_neg h]
      rfl

/-- Witness for C5: two fragments of zone 1 in either order, three fragment areas
summed, and the lookup-threshold identity at a concrete dissolved table. -/
theorem C5_fragment_summation_witness :
    aggArea ([⟨some 1, 2⟩] ++ [⟨some 1, 3⟩]) 1 =
      aggArea [⟨some 1, 2⟩] 1 + aggArea [⟨some 1, 3⟩] 1 ∧
    aggArea [⟨some 1, 2⟩, ⟨some 1, 3⟩] 1 = aggArea [⟨some 1, 3⟩, ⟨some 1, 2⟩] 1 ∧
    aggArea ([4, 5, 6].map (fun a => ⟨some 1, a⟩)) 1 = aggArea [⟨some 1, ([4, 5, 6] : List ℚ).sum⟩] 1 ∧
    areaFlag (lookupT (dissolveTable [⟨some 1, 2⟩]) (Zone.unique_id ⟨1, 7⟩)) (Zone.area ⟨1, 7⟩) =
      (if Zone.unique_id ⟨1, 7⟩ ∈ fragIds [⟨some 1, 2⟩]
        then areaFlag (some (aggArea [⟨some 1, 2⟩] (Zone.unique_id ⟨1, 7⟩))) (Zone.area ⟨1, 7⟩)
        else 0) :=
  C5_fragment_summation [⟨some 1, 2⟩] [⟨some 1, 3⟩] [⟨some 1, 2⟩, ⟨some 1, 3⟩]
    [⟨some 1, 3⟩, ⟨some 1, 2⟩] [4, 5, 6] [⟨some 1, 2⟩] ⟨1, 7⟩ 1
    (List.Perm.swap (⟨some 1, 3⟩ : Fragment) (⟨some 1, 2⟩ : Fragment) [])

/-- C6: the present point-density flag is 1 iff the number of 311 points contained in
the zone is at least 3 (a count threshold over point containment); a zone with exactly
3 contained points and zero polygon overlap gets point flag 1 and both area flags 0. -/
theorem C6_point_density_flag (pts : List CallPoint) (z : Zone)
    (h3 : point_count pts z.unique_id = 3) :
    (∀ (qs : List CallPoint) (i : Nat),
      pointFlag (some (point_count qs i : ℚ)) = 1 ↔ 3 ≤ point_count qs i) ∧
    (mkPresentRow z none none (some (point_count pts z.unique_id : ℚ))).depcaAfg = 1 ∧
    (mkPresentRow z none none (some (point_count pts z.unique_id : ℚ))).mod_cAfg = 0 ∧
    (mkPresentRow z none none (some (point_count pts z.unique_id : ℚ))).hundAfg = 0 := by
  refine ⟨?_, ?_, rfl, rfl⟩
  · intro qs i
    rw [pointFlag_some_eq_one_iff]
    constructor
    · intro h1
      exact_mod_cast h1
    · intro h1
      exact_mod_cast h1
  · show pointFlag (some (point_count pts z.unique_id : ℚ)) = 1
    rw [h3]
    norm_num [pointFlag]

/-- Witness for C6: a zone containing exactly three points and no fragments. -/
theorem C6_point_density_flag_witness :
    (∀ (qs : List CallPoint) (i : Nat),
      pointFlag (some (point_count qs i : ℚ)) = 1 ↔ 3 ≤ point_count qs i) ∧
    (mkPresentRow ⟨1, 1000⟩ none none
      (some (point_count [⟨some 1⟩, ⟨some 1⟩, ⟨some 1⟩] 1 : ℚ))).depcaAfg = 1 ∧
    (mkPresentRow ⟨1, 1000⟩ none none
      (some (point_count [⟨some 1⟩, ⟨some 1⟩, ⟨some 1⟩] 1 : ℚ))).mod_cAfg = 0 ∧
    (mkPresentRow ⟨1, 1000⟩ none none
      (some (point_count [⟨some 1⟩, ⟨some 1⟩, ⟨some 1⟩] 1 : ℚ))).hundAfg = 0 :=
  C6_point_density_flag [⟨some 1⟩, ⟨some 1⟩, ⟨some 1⟩] ⟨1, 1000⟩ (by decide)

/-- C1: counterexample — in the past epoch the union property fails.  One zone of area
1000 overlaps the first layer with area 50 and the second with area 60: every
per-layer 10% flag is 0 (both 50 and 60 are below 100), so their OR is 0, yet the
`BZ_past` of the script is 1 because it thresholds the summed areas (110 at least 100). -/
theorem C1_past_union_counterexample :
    (finalPast [⟨1, 1000⟩]
      [[⟨some 1, 50⟩], [⟨some 1, 60⟩], [], [], [], [], [], [], [], []]).map
      PastRow.BZ_past = [1] ∧
    (finalPast [⟨1, 1000⟩]
      [[⟨some 1, 50⟩], [⟨some 1, 60⟩], [], [], [], [], [], [], [], []]).map
      (fun r => orFlag (areaFlags r.aggs r.area)) = [0] := by
  constructor <;>
    norm_num [finalPast, leftJoinRows, joinBranch, mergedAgg, mergedKeys, dissolveTable,
      fragIds, sortNat, aggArea, lookupT, mkPastHit, mkPastMiss, pastSum, areaFlags,
      areaFlag, orFlag, List.insertionSort, List.orderedInsert, List.filter_cons,
      List.find?, List.filterMap_cons, List.dedup_cons_of_mem, List.dedup_cons_of_not_mem]

/-- C1 (amended): the present and future epoch flags are the logical OR of that epoch
per-layer flags (1 iff some per-layer flag is 1); the past epoch flag instead
thresholds the row sum of the per-layer overlap areas against 10% of the zone area,
and a zone absent from every past layer gets flag 0. -/
theorem C1_amended_epoch_union (z : Zone) (aggs : List (Option ℚ)) (m h pc : Option ℚ)
    (n : Nat) :
    ((mkFutureRow z aggs).BZ_future = 1 ↔ 1 ∈ areaFlags aggs z.area) ∧
    ((mkPresentRow z m h pc).BZ_present = 1 ↔
      pointFlag pc = 1 ∨ areaFlag m z.area = 1 ∨ areaFlag h z.area = 1) ∧
    ((mkPastHit z aggs).BZ_past = 1 ↔ (1 : ℚ)/10 * z.area ≤ pastSum aggs) ∧
    (mkPastMiss n z).BZ_past = 0 := by
  refine ⟨orFlag_eq_one_iff _, ?_, ?_, rfl⟩
  · show orFlag [pointFlag pc, areaFlag m z.area, areaFlag h z.area] = 1 ↔ _
    rw [orFlag_eq_one_iff]
    simp only [List.mem_cons, List.not_mem_nil, or_false]
    constructor
    · intro hc
      rcases hc with hc | hc | hc <;> simp [hc.symm]
    · intro hc
      rcases hc with hc | hc | hc <;> simp [hc]
  · show (if (1 : ℚ)/10 * z.area ≤ pastSum aggs then (1 : ℤ) else 0) = 1 ↔ _
    by_cases hle : (1 : ℚ)/10 * z.area ≤ pastSum aggs
    · rw [if_pos hle]
      exact iff_of_true rfl hle
    · rw [if_neg hle]
      exact iff_of_false (by norm_num) hle

/-- C3: with pairwise-distinct zone ids (a spec invariant of the atomic zone set), the
final table of every epoch — future, past, and any successfully produced present
table — has exactly one row per `unique_id` of the zone set, zero-overlap zones
included, and no id appears twice: the row count for id `i` is 1 when `i` is a zone
id, and 0 otherwise. -/
theorem C3_epoch_table_completeness (zones : List Zone) (layers : List (List Fragment))
    (lmod l100 : List Fragment) (t : Table311) (rows : List PresentRow) (i : Nat)
    (hz : (zones.map Zone.unique_id).Nodup)
    (hok : finalPresent zones lmod l100 t = Except.ok rows) :
    (finalFuture zones layers).countP (fun r => r.unique_id = i) =
      (if i ∈ zones.map Zone.unique_id then 1 else 0) ∧
    (finalPast zones layers).countP (fun r => r.unique_id = i) =
      (if i ∈ zones.map Zone.unique_id then 1 else 0) ∧
    rows.countP (fun r => r.unique_id = i) =
      (if i ∈ zones.map Zone.unique_id then 1 else 0) := by
  refine ⟨?_, ?_, ?_⟩
  · unfold finalFuture
    rw [countP_leftJoinRows FutureRow.unique_id _ _ _ _ (mergedAgg_keys_nodup layers)
      (fun _ => rfl) (fun _ _ => rfl) i]
    exact countP_uid_of_nodup zones hz i
  · unfold finalPast
    rw [countP_leftJoinRows PastRow.unique_id _ _ _ _ (mergedAgg_keys_nodup layers)
      (fun _ => rfl) (fun _ _ => rfl) i]
    exact countP_uid_of_nodup zones hz i
  · cases hp : present_311_csv t with
    | error e =>
      simp only [finalPresent, hp, Except.map] at hok
      exact Except.noConfusion hok
    | ok p =>
      simp only [finalPresent, hp, Except.map, Except.ok.injEq] at hok
      rw [← hok]
      unfold presentRows
      rw [countP_leftJoinRows PresentRow.unique_id _ _ _ _
        (mergedPresent_keys_nodup lmod l100 p) (fun _ => rfl) (fun _ _ => rfl) i]
      exact countP_uid_of_nodup zones hz i

/-- Witness for C3: two zones with distinct ids, empty layer data for all three
epochs, counted at id 1. -/
theorem C3_epoch_table_completeness_witness :
    (finalFuture [⟨1, 5⟩, ⟨2, 7⟩] []).countP (fun r => r.unique_id = 1) =
      (if 1 ∈ ([⟨1, 5⟩, ⟨2, 7⟩] : List Zone).map Zone.unique_id then 1 else 0) ∧
    (finalPast [⟨1, 5⟩, ⟨2, 7⟩] []).countP (fun r => r.unique_id = 1) =
      (if 1 ∈ ([⟨1, 5⟩, ⟨2, 7⟩] : List Zone).map Zone.unique_id then 1 else 0) ∧
    ([mkPresentRow ⟨1, 5⟩ none none none,
      mkPresentRow ⟨2, 7⟩ none none none]).countP (fun r => r.unique_id = 1) =
      (if 1 ∈ ([⟨1, 5⟩, ⟨2, 7⟩] : List Zone).map Zone.unique_id then 1 else 0) :=
  C3_epoch_table_completeness [⟨1, 5⟩, ⟨2, 7⟩] [] [] []
    ⟨["unique_id", "depcall", "Point_Coun"], []⟩
    [mkPresentRow ⟨1, 5⟩ none none none, mkPresentRow ⟨2, 7⟩ none none none] 1
    (by decide) (by rfl)

/-- C8: counterexample — a record with a missing `unique_id` is dropped by the
`groupby` silently: the dissolved table, the 311 aggregate and the whole final table
on an input holding one such record are identical to the ones produced when the record
never existed, so no output reports (or even lets one recover) a count of skipped
records. -/
theorem C8_silent_skip_counterexample :
    dissolveTable [⟨none, 5⟩] = dissolveTable [] ∧
    agg311 [⟨none, some 4⟩] = agg311 [] ∧
    finalFuture [⟨1, 100⟩] [[⟨none, 5⟩]] = finalFuture [⟨1, 100⟩] [[]] :=
  ⟨rfl, rfl, rfl⟩

/-- C8 (amended): records lacking a usable `unique_id` are excluded from aggregation —
they contribute to no aggregate of any zone, cause no error and do not corrupt the join —
but the exclusion is silent (the `groupby` drops NaN keys): no count of the skipped
records is reported anywhere. -/
theorem C8_amended_silent_exclusion (frs : List Fragment) (rows : List Row311) :
    dissolveTable frs = dissolveTable (frs.filter (fun f => f.unique_id.isSome)) ∧
    agg311 rows = agg311 (rows.filter (fun r => r.uid.isSome)) :=
  ⟨(dissolveTable_filter_isSome frs).symm, (agg311_filter_isSome rows).symm⟩

/-- C7: counterexample — the merge loop passes the same positional suffix for both
sides (`the same suffix twice), so when two tables of one merge step share a
non-key column name, the two columns collapse into an identically named pair
(`cat_1`, `cat_1`): collisions are not resolved into distinct names. -/
theorem C7_suffix_collision_counterexample :
    mergeChainCols [["unique_id", "cat"], ["unique_id", "cat"]] =
      ["unique_id", "cat_1", "cat_1"] ∧
    ¬ (mergeChainCols [["unique_id", "cat"], ["unique_id", "cat"]]).Nodup := by
  constructor
  · decide
  · decide

/-- C7 (amended): the positional suffix scheme leaves colliding columns ambiguous
(same suffix on both sides), so distinct merged column names are guaranteed only
because the actual per-layer tables of each epoch carry pairwise-distinct non-key
column names: for the real past, future and present column sets every column passes
through the merge chain unchanged and the merged tables have no duplicate names. -/
theorem C7_amended_actual_columns_distinct :
    mergeChainCols pastLayerCols =
      ["unique_id", "beachA", "beaches", "rivA", "river", "fresh_weA", "fresh_wetl",
       "mariA", "marine", "poA", "pond", "saltmarA", "saltmarsh", "streaA", "streams",
       "dunA", "dunes", "tidal_crA", "tidal_cree", "int_streA", "int_stream"] ∧
    (mergeChainCols pastLayerCols).Nodup ∧
    mergeChainCols futureLayerCols =
      ["unique_id", "mod_20A", "mod_2050", "mo_20_fldC", "ext_20A", "ext_2080",
       "ex_20_fldC", "500A", "500yr"] ∧
    (mergeChainCols futureLayerCols).Nodup ∧
    mergeChainCols presentLayerCols =
      ["unique_id", "mod_cA", "mod_cur", "mo_cu_fldC", "100A", "100yr", "depcall",
       "Point_Coun"] ∧
    (mergeChainCols presentLayerCols).Nodup := by
  refine ⟨?_, ?_, ?_, ?_, ?_, ?_⟩ <;> decide

/-- C9: when the 311 input lacks a `Point_Coun` column, the aggregation step errors
(its aggregation dictionary references `Point_Coun` even though the column-filtering
step removed it), the run aborts, and no final present table — in particular no
all-zero point-flag fallback — is ever produced from that input shape. -/
theorem C9_missing_point_coun_aborts (t : Table311) (zones : List Zone)
    (lmod l100 : List Fragment) (h : "Point_Coun" ∉ t.cols) :
    (∃ e, present_311_csv t = Except.error e) ∧
    ∀ rows, finalPresent zones lmod l100 t ≠ Except.ok rows := by
  have hkeep : "Point_Coun" ∉
      ["unique_id", "depcall", "Point_Coun"].filter (fun c => c ∈ t.cols) := by
    intro hmem
    exact h (by simpa using List.of_mem_filter hmem)
  have herr : ∃ e, present_311_csv t = Except.error e := by
    unfold present_311_csv
    by_cases h1 : "unique_id" ∉
        List.filter (fun c => decide (c ∈ t.cols)) ["unique_id", "depcall", "Point_Coun"]
    · rw [if_pos h1]
      exact ⟨_, rfl⟩
    · rw [if_neg h1]
      by_cases h2 : "depcall" ∉
          List.filter (fun c => decide (c ∈ t.cols)) ["unique_id", "depcall", "Point_Coun"]
      · rw [if_pos h2]
        exact ⟨_, rfl⟩
      · rw [if_neg h2, if_pos hkeep]
        exact ⟨_, rfl⟩
  obtain ⟨e, he⟩ := herr
  refine ⟨⟨e, he⟩, ?_⟩
  intro rows hok
  simp only [finalPresent, he, Except.map] at hok
  exact Except.noConfusion hok

/-- Witness for C9: a 311 table exposing only `unique_id` and `depcall`. -/
theorem C9_missing_point_coun_aborts_witness :
    (∃ e, present_311_csv ⟨["unique_id", "depcall"], []⟩ = Except.error e) ∧
    ∀ rows, finalPresent [] [] [] ⟨["unique_id", "depcall"], []⟩ ≠ Except.ok rows :=
  C9_missing_point_coun_aborts ⟨["unique_id", "depcall"], []⟩ [] [] [] (by decide)

/-- C10: in the present and future final tables every per-layer flag column and the
epoch union flag hold exactly the integer 0 or 1 on every row, regardless of the
overlaps of the zone: each flag is the integer cast of a total boolean comparison and each
union flag is an initial 0 selectively set to 1. -/
theorem C10_flags_binary (zones : List Zone) (layers : List (List Fragment))
    (lmod l100 : List Fragment) (t : Table311) (rows : List PresentRow)
    (r : FutureRow) (s : PresentRow) (hr : r ∈ finalFuture zones layers)
    (hok : finalPresent zones lmod l100 t = Except.ok rows) (hs : s ∈ rows) :
    (∀ f ∈ r.flags, f = 0 ∨ f = 1) ∧ (r.BZ_future = 0 ∨ r.BZ_future = 1) ∧
    (s.depcaAfg = 0 ∨ s.depcaAfg = 1) ∧ (s.mod_cAfg = 0 ∨ s.mod_cAfg = 1) ∧
    (s.hundAfg = 0 ∨ s.hundAfg = 1) ∧ (s.BZ_present = 0 ∨ s.BZ_present = 1) := by
  obtain ⟨hfl, hbz⟩ := finalFuture_row_flags hr
  have hshape : s.depcaAfg = pointFlag s.pointCoun ∧
      s.mod_cAfg = areaFlag s.mod_cA s.area ∧ s.hundAfg = areaFlag s.hundA s.area ∧
      s.BZ_present = orFlag [s.depcaAfg, s.mod_cAfg, s.hundAfg] := by
    cases hp : present_311_csv t with
    | error e =>
      simp only [finalPresent, hp, Except.map] at hok
      exact Except.noConfusion hok
    | ok p =>
      simp only [finalPresent, hp, Except.map, Except.ok.injEq] at hok
      exact presentRows_row_shape (by rw [hok]; exact hs)
  obtain ⟨h1, h2, h3, h4⟩ := hshape
  refine ⟨?_, ?_, ?_, ?_, ?_, ?_⟩
  · intro f hf
    rw [hfl] at hf
    exact mem_areaFlags_bit hf
  · rw [hbz]
    exact orFlag_mem _
  · rw [h1]
    exact pointFlag_mem _
  · rw [h2]
    exact areaFlag_mem _ _
  · rw [h3]
    exact areaFlag_mem _ _
  · rw [h4]
    exact orFlag_mem _

/-- Witness for C10: a one-zone run of both epochs with empty layer data. -/
theorem C10_flags_binary_witness :
    (∀ f ∈ (mkFutureRow ⟨1, 10⟩ []).flags, f = 0 ∨ f = 1) ∧
    ((mkFutureRow ⟨1, 10⟩ []).BZ_future = 0 ∨ (mkFutureRow ⟨1, 10⟩ []).BZ_future = 1) ∧
    ((mkPresentRow ⟨1, 10⟩ none none none).depcaAfg = 0 ∨
      (mkPresentRow ⟨1, 10⟩ none none none).depcaAfg = 1) ∧
    ((mkPresentRow ⟨1, 10⟩ none none none).mod_cAfg = 0 ∨
      (mkPresentRow ⟨1, 10⟩ none none none).mod_cAfg = 1) ∧
    ((mkPresentRow ⟨1, 10⟩ none none none).hundAfg = 0 ∨
      (mkPresentRow ⟨1, 10⟩ none none none).hundAfg = 1) ∧
    ((mkPresentRow ⟨1, 10⟩ none none none).BZ_present = 0 ∨
      (mkPresentRow ⟨1, 10⟩ none none none).BZ_present = 1) :=
  C10_flags_binary [⟨1, 10⟩] [] [] [] ⟨["unique_id", "depcall", "Point_Coun"], []⟩
    [mkPresentRow ⟨1, 10⟩ none none none] (mkFutureRow ⟨1, 10⟩ [])
    (mkPresentRow ⟨1, 10⟩ none none none)
    (by simp [finalFuture, leftJoinRows, joinBranch, mergedAgg, mergedKeys, sortNat,
      List.insertionSort])
    (by rfl)
    (List.mem_singleton.mpr rfl)

end BlueZone
